import Mathlib

/-!
Shallow embedding of `src/scripts/1_preprocess_and_trim.c` (pairtcr).

The embedding covers the core of the program: `reverse_complement`
(C lines 312-325), the anchor search (`find_pattern`, C line 342, a
`strstr` wrapper, modelled by `findPattern` returning the index of the
first occurrence), the validation / extraction state machine
`extract_umi_and_trim` (C lines 346-416), and the per-pair
classification and routing logic of `main`'s processing loop
(C lines 162-241), modelled by `processPair`.

C strings are modelled as `List Char`; the NUL terminator is implicit
(the end of the list).  The C code advances a cursor `pos` past the
matched anchor and performs `strncpy`/`strncmp`/`*pos` accesses with no
bounds check; those accesses stay inside the NUL-terminated string
except when the cursor has been advanced strictly past the terminator,
in which case the C code reads indeterminate bytes of the fixed-size
buffer (stale data from a previous record, or memory past the buffer).
The model makes that case explicit as the distinguished outcome
`ExtractOut.oob`: whenever the result of the C code would depend on
bytes beyond the string terminator, the model returns `.oob` instead of
guessing those bytes.
-/

namespace PairTCR

/-! ## Configuration constants (C lines 13-26) -/

/-- `#define UMI1_LEN 7` -/
def UMI1_LEN : Nat := 7

/-- `#define UMI2_LEN 7` -/
def UMI2_LEN : Nat := 7

/-- `#define PRE_UMI1_TRA "GACTCTGATGACGACGCACA"` -/
def PRE_UMI1_TRA : List Char := "GACTCTGATGACGACGCACA".toList

/-- `#define LINKER_FWD_TRA "GTACACGCTGGATCCGACTTGTAGA"` -/
def LINKER_FWD_TRA : List Char := "GTACACGCTGGATCCGACTTGTAGA".toList

/-- `#define FLANK_TRA_SEQ "TACTCTGCTGATACCGATGC"` -/
def FLANK_TRA_SEQ : List Char := "TACTCTGCTGATACCGATGC".toList

/-- `#define PRE_UMI1_TRB "GCATCGGTATCAGCAGAGTA"` -/
def PRE_UMI1_TRB : List Char := "GCATCGGTATCAGCAGAGTA".toList

/-- `#define LINKER_REV_TRB "TCTACAAGTCGGATCCAGCGTGTAC"` -/
def LINKER_REV_TRB : List Char := "TCTACAAGTCGGATCCAGCGTGTAC".toList

/-- `#define FLANK_TRB_SEQ "TGTGCGTCGTCATCAGAGTC"` -/
def FLANK_TRB_SEQ : List Char := "TGTGCGTCGTCATCAGAGTC".toList

/-! ## Sequence utilities -/

/-- The five-letter nucleotide alphabet of the data model. -/
def isBase (c : Char) : Bool :=
  c = 'A' || c = 'C' || c = 'G' || c = 'T' || c = 'N'

/-- One arm of the `switch` in `reverse_complement` (C lines 315-322):
A↔T, C↔G, N↔N, every other character maps to N (the `default` case). -/
def complementChar (c : Char) : Char :=
  if c = 'A' then 'T'
  else if c = 'T' then 'A'
  else if c = 'C' then 'G'
  else if c = 'G' then 'C'
  else 'N'

/-- `reverse_complement` (C lines 312-325): output position `i` holds the
complement of input position `len - 1 - i`. -/
def reverse_complement (seq : List Char) : List Char :=
  seq.reverse.map complementChar

/-- `find_pattern` (C line 342) is `strstr`: index of the first occurrence
of `pat` in the haystack, `none` if absent. -/
def findPattern (pat : List Char) : List Char → Option Nat
  | [] => if pat.isPrefixOf ([] : List Char) then some 0 else none
  | c :: t =>
    if pat.isPrefixOf (c :: t) then some 0
    else (findPattern pat t).map (· + 1)

/-! ## The extraction state machine -/

/-- The output of a successful `extract_umi_and_trim` call: the four
caller-visible values (`found_rc`, `umi1`, `umi2`, `trimmed_seq`)
together with `boundary`, the final cursor offset `pos - search_seq`
(the position just past the terminal base, in the coordinates of the
buffer that was searched).  The C code computes the trim from exactly
this offset (C lines 403-413). -/
structure MatchResult where
  found_rc : Bool
  umi1 : List Char
  umi2 : List Char
  trimmed : List Char
  boundary : Nat
  deriving DecidableEq

/-- Outcome of `extract_umi_and_trim`.  `.noMatch` is `return 0`,
`.matched` is `return 1`.  `.oob` marks the executions in which the C
code dereferences the cursor strictly past the string's NUL terminator
(no bounds check exists in the source), so the C result depends on
indeterminate buffer bytes. -/
inductive ExtractOut where
  | oob
  | noMatch
  | matched (r : MatchResult)
  deriving DecidableEq

/-- The validation chain of `extract_umi_and_trim` after the anchor was
found at offset `m` of `s` (C lines 372-415).  `orig` is the original
sequence, `s` the buffer that was searched (`orig` itself, or its
reverse complement), `found_rc` tells which.

Cursor offsets, with `a`/`l`/`f` the anchor, linker and flank literals:
`p1 = m + |a|` (after the anchor), `p2 = p1 + UMI1_LEN` (linker check,
C line 381), `p3 = p2 + |l|` (UMI2), `p4 = p3 + UMI2_LEN` (flank check,
C line 392), `p5 = p4 + |f|` (terminal-base check, C line 398),
`p6 = p5 + 1` (the final cursor).

`strncpy` for a UMI stops at the terminator, so it never reads past the
string; the following `strncmp` (resp. the terminal `*pos`) is the
access that leaves the string when the cursor is strictly past the
terminator, which is exactly `|s| < p2` (resp. `|s| < p4`) — in those
executions every continuation of the C code reads at least one
indeterminate byte, hence `.oob`.  With the cursor at most at the
terminator, `strncmp` stops at the NUL and is mismatch iff the literal
is not a prefix of the remaining string, and the terminal `*pos` reads
the NUL (≠ 'A','T') when the string ends there. -/
def extractAt (orig s : List Char) (found_rc : Bool) (m : Nat)
    (a l f : List Char) : ExtractOut :=
  if s.length < m + a.length + UMI1_LEN then .oob
  else if ! l.isPrefixOf (s.drop (m + a.length + UMI1_LEN)) then .noMatch
  else if s.length < m + a.length + UMI1_LEN + l.length + UMI2_LEN then .oob
  else if ! f.isPrefixOf
      (s.drop (m + a.length + UMI1_LEN + l.length + UMI2_LEN)) then .noMatch
  else if ¬ ((s.drop (m + a.length + UMI1_LEN + l.length + UMI2_LEN + f.length)).take 1 = ['A']
      ∨ (s.drop (m + a.length + UMI1_LEN + l.length + UMI2_LEN + f.length)).take 1 = ['T']) then
    .noMatch
  else if found_rc then
    .matched ⟨true,
      (s.drop (m + a.length)).take UMI1_LEN,
      (s.drop (m + a.length + UMI1_LEN + l.length)).take UMI2_LEN,
      orig.take (orig.length - (m + a.length + UMI1_LEN + l.length + UMI2_LEN + f.length + 1)),
      m + a.length + UMI1_LEN + l.length + UMI2_LEN + f.length + 1⟩
  else
    .matched ⟨false,
      (s.drop (m + a.length)).take UMI1_LEN,
      (s.drop (m + a.length + UMI1_LEN + l.length)).take UMI2_LEN,
      orig.drop (m + a.length + UMI1_LEN + l.length + UMI2_LEN + f.length + 1),
      m + a.length + UMI1_LEN + l.length + UMI2_LEN + f.length + 1⟩

/-- The anchor search of `extract_umi_and_trim` (C lines 349-366): try
the sequence as given, then its reverse complement; report the buffer
searched (as the Bool `found_rc`) and the match offset. -/
def locate (sequence a : List Char) : Option (Bool × Nat) :=
  match findPattern a sequence with
  | some m => some (false, m)
  | none =>
    match findPattern a (reverse_complement sequence) with
    | some m => some (true, m)
    | none => none

/-- `extract_umi_and_trim` (C lines 346-416). -/
def extract_umi_and_trim (sequence a l f : List Char) : ExtractOut :=
  match locate sequence a with
  | some (false, m) => extractAt sequence sequence false m a l f
  | some (true, m) => extractAt sequence (reverse_complement sequence) true m a l f
  | none => .noMatch

/-! ## The per-pair classification and routing loop of `main` -/

/-- A FASTQ record after newline stripping (C lines 38-43, 327-340). -/
structure FastqRecord where
  header : List Char
  sequence : List Char
  plus : List Char
  quality : List Char
  deriving DecidableEq

/-- The header annotation `" UMI:<ASSAY>:<umi1>_<umi2>"` plus `":RC"`
when the match was on the reverse complement (C lines 182-185). -/
def umiTag (assay umi1 umi2 : List Char) (rc : Bool) : List Char :=
  " UMI:".toList ++ assay ++ ":".toList ++ umi1 ++ "_".toList ++ umi2 ++
    (if rc then ":RC".toList else [])

/-- The trimmed-quality computation of `main` (C lines 187-195 for TRA,
221-229 for TRB): forward, `trim_pos = strlen(sequence) -
strlen(trimmed_seq)` and the quality suffix from `trim_pos` is taken;
on a reverse-complement match, `trim_pos = strlen(trimmed_seq)` and the
quality prefix of that length is taken. -/
def trimQuality (sequence quality trimmed_seq : List Char) (found_rc : Bool) : List Char :=
  if found_rc then quality.take trimmed_seq.length
  else quality.drop (sequence.length - trimmed_seq.length)

/-- What one iteration of the `main` loop does with one read pair:
which record (if any) is written to each of the four output channels,
which counters are incremented, and whether the TRB extractor was run
(`trbChecked` mirrors the `read_type == 0` guard at C line 208 that
makes the TRB check conditional on the TRA check having failed). -/
structure PairOutcome where
  traR1 : Option FastqRecord
  traR2 : Option FastqRecord
  trbR1 : Option FastqRecord
  trbR2 : Option FastqRecord
  traInc : Bool
  trbInc : Bool
  processedInc : Bool
  trbChecked : Bool
  deriving DecidableEq

/-- One iteration of the processing loop (C lines 162-241) for the pair
`(r1, r2)`: TRA on read 1 first (C line 176); only if that returns 0 is
TRB tried on read 2 (C lines 208-210); a successful extraction is
written only when the trimmed sequence and the partner sequence are
both non-empty (C lines 198, 232).  `processed_pairs` is incremented as
soon as the pair is read (C line 169).  `none` when the extraction ran
into indeterminate memory (`.oob`), in which case the C behaviour is
not defined by the source. -/
def processPair (r1 r2 : FastqRecord) : Option PairOutcome :=
  match extract_umi_and_trim r1.sequence PRE_UMI1_TRA LINKER_FWD_TRA FLANK_TRA_SEQ with
  | .oob => none
  | .matched res =>
    let tq := trimQuality r1.sequence r1.quality res.trimmed res.found_rc
    if res.trimmed.length > 0 ∧ r2.sequence.length > 0 then
      some ⟨some ⟨r1.header ++ umiTag "TRA".toList res.umi1 res.umi2 res.found_rc,
                  res.trimmed, r1.plus, tq⟩,
            some ⟨r2.header ++ umiTag "TRA".toList res.umi1 res.umi2 res.found_rc,
                  r2.sequence, r2.plus, r2.quality⟩,
            none, none, true, false, true, false⟩
    else
      some ⟨none, none, none, none, false, false, true, false⟩
  | .noMatch =>
    match extract_umi_and_trim r2.sequence PRE_UMI1_TRB LINKER_REV_TRB FLANK_TRB_SEQ with
    | .oob => none
    | .matched res =>
      let tq := trimQuality r2.sequence r2.quality res.trimmed res.found_rc
      if r1.sequence.length > 0 ∧ res.trimmed.length > 0 then
        some ⟨none, none,
              some ⟨r1.header ++ umiTag "TRB".toList res.umi1 res.umi2 res.found_rc,
                    r1.sequence, r1.plus, r1.quality⟩,
              some ⟨r2.header ++ umiTag "TRB".toList res.umi1 res.umi2 res.found_rc,
                    res.trimmed, r2.plus, tq⟩,
              false, true, true, true⟩
      else
        some ⟨none, none, none, none, false, false, true, true⟩
    | .noMatch => some ⟨none, none, none, none, false, false, true, true⟩

/-! ## Failure predicates used to state the failure-policy claims -/

/-- The in-bounds ways the validation chain at anchor offset `m` of the
searched buffer `s` can fail (C lines 381, 392, 398): the linker
characters are present but differ from the linker literal, or the
linker matches but the flank characters are present and differ, or
linker and flank match but the single terminal character is neither 'A'
nor 'T'. -/
def failsAt (s : List Char) (m : Nat) (a l f : List Char) : Bool :=
  (decide (m + a.length + UMI1_LEN ≤ s.length)
    && ! l.isPrefixOf (s.drop (m + a.length + UMI1_LEN)))
  || (decide (m + a.length + UMI1_LEN ≤ s.length)
    && l.isPrefixOf (s.drop (m + a.length + UMI1_LEN))
    && decide (m + a.length + UMI1_LEN + l.length + UMI2_LEN ≤ s.length)
    && ! f.isPrefixOf (s.drop (m + a.length + UMI1_LEN + l.length + UMI2_LEN)))
  || (decide (m + a.length + UMI1_LEN ≤ s.length)
    && l.isPrefixOf (s.drop (m + a.length + UMI1_LEN))
    && decide (m + a.length + UMI1_LEN + l.length + UMI2_LEN ≤ s.length)
    && f.isPrefixOf (s.drop (m + a.length + UMI1_LEN + l.length + UMI2_LEN))
    && ! (decide ((s.drop (m + a.length + UMI1_LEN + l.length + UMI2_LEN + f.length)).take 1 = ['A'])
       || decide ((s.drop (m + a.length + UMI1_LEN + l.length + UMI2_LEN + f.length)).take 1 = ['T'])))

/-- Some validation step of the whole chain fails: the anchor is absent
in both orientations, or it is found (in whichever buffer the code
searches) and the chain fails in bounds at that position. -/
def failsChain (sequence a l f : List Char) : Bool :=
  match findPattern a sequence with
  | some m => failsAt sequence m a l f
  | none =>
    match findPattern a (reverse_complement sequence) with
    | some m => failsAt (reverse_complement sequence) m a l f
    | none => true

/-! ## Helper lemmas -/

lemma rc_length (s : List Char) : (reverse_complement s).length = s.length := by
  simp [reverse_complement]

lemma rc_append (x y : List Char) :
    reverse_complement (x ++ y) = reverse_complement y ++ reverse_complement x := by
  simp [reverse_complement]

lemma comp_comp_of_base (c : Char) (h : isBase c = true) :
    complementChar (complementChar c) = c := by
  simp only [isBase, Bool.or_eq_true, decide_eq_true_eq] at h
  obtain ((((h | h) | h) | h) | h) := h <;> subst h <;> decide

lemma rc_rc_of_bases : ∀ s : List Char, (∀ c ∈ s, isBase c = true) →
    reverse_complement (reverse_complement s) = s
  | [], _ => rfl
  | c :: t, h => by
    have hc : isBase c = true := h c (by simp)
    have ht : ∀ x ∈ t, isBase x = true := fun x hx => h x (by simp [hx])
    have e1 : reverse_complement (c :: t) = reverse_complement t ++ [complementChar c] := by
      simp [reverse_complement]
    rw [e1, rc_append, rc_rc_of_bases t ht]
    simp [reverse_complement, comp_comp_of_base c hc]

/-- Characterization of a successful run of the validation chain. -/
lemma extractAt_matched {orig s : List Char} {rc? : Bool} {m : Nat} {a l f : List Char}
    {r : MatchResult} (h : extractAt orig s rc? m a l f = .matched r) :
    r.found_rc = rc? ∧
    r.boundary = m + a.length + UMI1_LEN + l.length + UMI2_LEN + f.length + 1 ∧
    r.boundary ≤ s.length ∧
    r.umi1 = (s.drop (m + a.length)).take UMI1_LEN ∧
    r.umi2 = (s.drop (m + a.length + UMI1_LEN + l.length)).take UMI2_LEN ∧
    r.trimmed = (if rc? then orig.take (orig.length - r.boundary)
                 else orig.drop r.boundary) := by
  unfold extractAt at h
  split at h
  · exact absurd h (by simp)
  split at h
  · exact absurd h (by simp)
  split at h
  · exact absurd h (by simp)
  split at h
  · exact absurd h (by simp)
  split at h
  · exact absurd h (by simp)
  rename_i h1 h2 h3 h4 h5
  have hb1 : m + a.length + UMI1_LEN ≤ s.length := Nat.le_of_not_lt h1
  have hb2 : m + a.length + UMI1_LEN + l.length + UMI2_LEN ≤ s.length := Nat.le_of_not_lt h3
  simp only [Bool.not_eq_true', Bool.not_eq_false] at h2 h4
  have hl2 : l.length ≤ (s.drop (m + a.length + UMI1_LEN)).length :=
    (List.isPrefixOf_iff_prefix.mp h2).length_le
  have hf2 : f.length ≤
      (s.drop (m + a.length + UMI1_LEN + l.length + UMI2_LEN)).length :=
    (List.isPrefixOf_iff_prefix.mp h4).length_le
  rw [List.length_drop] at hl2 hf2
  have h5' := not_not.mp h5
  have hne : s.drop (m + a.length + UMI1_LEN + l.length + UMI2_LEN + f.length) ≠ [] := by
    intro he
    rcases h5' with h5' | h5' <;> rw [he] at h5' <;> exact absurd h5' (by simp)
  have hlt : m + a.length + UMI1_LEN + l.length + UMI2_LEN + f.length < s.length := by
    rcases Nat.lt_or_ge (m + a.length + UMI1_LEN + l.length + UMI2_LEN + f.length) s.length
      with hx | hx
    · exact hx
    · exact absurd (List.drop_eq_nil_iff.mpr hx) hne
  split at h <;> rename_i h6 <;>
    (injection h with hr; subst hr) <;> simp [h6] <;> omega

/-- Running the validation chain on a buffer that carries the full
composite pattern at offset `|pre|` succeeds and returns the embedded
UMIs and the trim computed from the final cursor. -/
lemma extractAt_composite (orig pre post u1 u2 : List Char) (a l f : List Char)
    (rc? : Bool) (t : Char) (m : Nat) (h1 : u1.length = UMI1_LEN) (h2 : u2.length = UMI2_LEN)
    (ht : t = 'A' ∨ t = 'T') (hm : m = pre.length) :
    extractAt orig (pre ++ a ++ u1 ++ l ++ u2 ++ f ++ t :: post) rc? m a l f =
      (if rc? then
        ExtractOut.matched ⟨true, u1, u2,
          orig.take (orig.length -
            (pre.length + a.length + UMI1_LEN + l.length + UMI2_LEN + f.length + 1)),
          pre.length + a.length + UMI1_LEN + l.length + UMI2_LEN + f.length + 1⟩
      else
        ExtractOut.matched ⟨false, u1, u2,
          orig.drop (pre.length + a.length + UMI1_LEN + l.length + UMI2_LEN + f.length + 1),
          pre.length + a.length + UMI1_LEN + l.length + UMI2_LEN + f.length + 1⟩) := by
  subst hm
  have d1 : (pre ++ a ++ u1 ++ l ++ u2 ++ f ++ t :: post).drop (pre.length + a.length)
      = u1 ++ l ++ u2 ++ f ++ t :: post := by
    have hs : pre ++ a ++ u1 ++ l ++ u2 ++ f ++ t :: post
        = (pre ++ a) ++ (u1 ++ l ++ u2 ++ f ++ t :: post) := by simp
    rw [hs]; exact List.drop_left' (by simp)
  have d2 : (pre ++ a ++ u1 ++ l ++ u2 ++ f ++ t :: post).drop
      (pre.length + a.length + UMI1_LEN) = l ++ u2 ++ f ++ t :: post := by
    have hs : pre ++ a ++ u1 ++ l ++ u2 ++ f ++ t :: post
        = (pre ++ a ++ u1) ++ (l ++ u2 ++ f ++ t :: post) := by simp
    rw [hs]; exact List.drop_left' (by simp only [List.length_append, h1])
  have d3 : (pre ++ a ++ u1 ++ l ++ u2 ++ f ++ t :: post).drop
      (pre.length + a.length + UMI1_LEN + l.length) = u2 ++ f ++ t :: post := by
    have hs : pre ++ a ++ u1 ++ l ++ u2 ++ f ++ t :: post
        = (pre ++ a ++ u1 ++ l) ++ (u2 ++ f ++ t :: post) := by simp
    rw [hs]; exact List.drop_left' (by simp only [List.length_append, h1])
  have d4 : (pre ++ a ++ u1 ++ l ++ u2 ++ f ++ t :: post).drop
      (pre.length + a.length + UMI1_LEN + l.length + UMI2_LEN) = f ++ t :: post := by
    have hs : pre ++ a ++ u1 ++ l ++ u2 ++ f ++ t :: post
        = (pre ++ a ++ u1 ++ l ++ u2) ++ (f ++ t :: post) := by simp
    rw [hs]; exact List.drop_left' (by simp only [List.length_append, h1, h2])
  have d5 : (pre ++ a ++ u1 ++ l ++ u2 ++ f ++ t :: post).drop
      (pre.length + a.length + UMI1_LEN + l.length + UMI2_LEN + f.length) = t :: post := by
    have hs : pre ++ a ++ u1 ++ l ++ u2 ++ f ++ t :: post
        = (pre ++ a ++ u1 ++ l ++ u2 ++ f) ++ (t :: post) := by simp
    rw [hs]; exact List.drop_left' (by simp only [List.length_append, h1, h2])
  have hlen : (pre ++ a ++ u1 ++ l ++ u2 ++ f ++ t :: post).length
      = pre.length + a.length + UMI1_LEN + l.length + UMI2_LEN + f.length + 1 + post.length := by
    simp only [List.length_append, List.length_cons, h1, h2]
    omega
  have hpl : l.isPrefixOf (l ++ u2 ++ f ++ t :: post) = true :=
    List.isPrefixOf_iff_prefix.mpr ⟨u2 ++ f ++ t :: post, by simp⟩
  have hpf : f.isPrefixOf (f ++ t :: post) = true :=
    List.isPrefixOf_iff_prefix.mpr ⟨t :: post, by simp⟩
  have c1 : ¬ ((pre ++ a ++ u1 ++ l ++ u2 ++ f ++ t :: post).length
      < pre.length + a.length + UMI1_LEN) := by rw [hlen]; omega
  have c2 : ¬ ((pre ++ a ++ u1 ++ l ++ u2 ++ f ++ t :: post).length
      < pre.length + a.length + UMI1_LEN + l.length + UMI2_LEN) := by rw [hlen]; omega
  have htake1 : (u1 ++ l ++ u2 ++ f ++ t :: post).take UMI1_LEN = u1 := by
    have hs : u1 ++ l ++ u2 ++ f ++ t :: post = u1 ++ (l ++ u2 ++ f ++ t :: post) := by simp
    rw [hs]; exact List.take_left' h1
  have htake2 : (u2 ++ f ++ t :: post).take UMI2_LEN = u2 := by
    have hs : u2 ++ f ++ t :: post = u2 ++ (f ++ t :: post) := by simp
    rw [hs]; exact List.take_left' h2
  unfold extractAt
  rw [if_neg c1, d1, d2, d3, d4, d5, hpl, hpf, if_neg c2]
  have hterm : ¬ ¬ ((t :: post).take 1 = ['A'] ∨ (t :: post).take 1 = ['T']) := by
    rcases ht with rfl | rfl <;> simp
  rw [htake1, htake2]
  simp only [Bool.not_true, Bool.false_eq_true, if_false, if_neg hterm]

/-- An in-bounds validation failure makes the chain return `.noMatch`. -/
lemma extractAt_fails {orig s : List Char} {rc? : Bool} {m : Nat} {a l f : List Char}
    (h : failsAt s m a l f = true) : extractAt orig s rc? m a l f = .noMatch := by
  unfold failsAt at h
  simp only [Bool.or_eq_true, Bool.and_eq_true, Bool.not_eq_true', decide_eq_true_eq] at h
  unfold extractAt
  rcases h with (⟨hb, hl⟩ | ⟨⟨⟨hb, hl⟩, hb2⟩, hf⟩) | ⟨⟨⟨⟨hb, hl⟩, hb2⟩, hf⟩, hterm⟩
  · have c1 : ¬ (s.length < m + a.length + UMI1_LEN) := by omega
    rw [if_neg c1, hl]
    simp
  · have c1 : ¬ (s.length < m + a.length + UMI1_LEN) := by omega
    have c2 : ¬ (s.length < m + a.length + UMI1_LEN + l.length + UMI2_LEN) := by omega
    rw [if_neg c1, hl, if_neg c2, hf]
    simp
  · simp only [Bool.not_eq_true', Bool.or_eq_false_iff, decide_eq_false_iff_not] at hterm
    have c1 : ¬ (s.length < m + a.length + UMI1_LEN) := by omega
    have c2 : ¬ (s.length < m + a.length + UMI1_LEN + l.length + UMI2_LEN) := by omega
    rw [if_neg c1, hl, if_neg c2, hf]
    simp only [Bool.not_true, Bool.false_eq_true, if_false]
    rw [if_pos (by exact not_or.mpr hterm)]

/-- Invariants of a successful `extract_umi_and_trim` run, in original
coordinates. -/
lemma extract_matched_inv {seq a l f : List Char} {r : MatchResult}
    (h : extract_umi_and_trim seq a l f = .matched r) :
    ∃ m, locate seq a = some (r.found_rc, m) ∧
      r.boundary = m + a.length + UMI1_LEN + l.length + UMI2_LEN + f.length + 1 ∧
      r.boundary ≤ seq.length ∧
      r.trimmed = (if r.found_rc then seq.take (seq.length - r.boundary)
                   else seq.drop r.boundary) := by
  unfold extract_umi_and_trim at h
  cases hl : locate seq a with
  | none => rw [hl] at h; exact absurd h (by simp)
  | some p =>
    obtain ⟨rc?, m⟩ := p
    cases rc? with
    | false =>
      rw [hl] at h
      obtain ⟨e1, e2, e3, _, _, e6⟩ := extractAt_matched h
      refine ⟨m, by simp only [e1, hl], e2, e3, ?_⟩
      rw [e6, e1]
    | true =>
      rw [hl] at h
      obtain ⟨e1, e2, e3, _, _, e6⟩ := extractAt_matched h
      rw [rc_length] at e3
      refine ⟨m, by simp only [e1, hl], e2, e3, ?_⟩
      rw [e6, e1]

/-! ## Concrete inputs used by witnesses and counterexamples -/

/-- The end-to-end example sequence of the spec (§8): the full TRA
composite (anchor, `umi1 = AAAAAAA`, linker, `umi2 = TTTTTTT`, flank,
terminal `A`) followed by the payload `GGGCCC`. -/
def exampleSeqTRA : List Char :=
  PRE_UMI1_TRA ++ "AAAAAAA".toList ++ LINKER_FWD_TRA ++ "TTTTTTT".toList ++
    FLANK_TRA_SEQ ++ "A".toList ++ "GGGCCC".toList

/-- The match result the extractor produces on `exampleSeqTRA`. -/
def exampleResTRA : MatchResult :=
  ⟨false, "AAAAAAA".toList, "TTTTTTT".toList, "GGGCCC".toList, 80⟩

/-! ## Claims -/

/-- C1: for every sequence on which the full composite motif is
validated, the trim is orientation-dependent: on a forward match the
trimmed sequence is the suffix of the original sequence from the motif
end boundary (the cursor position just after the terminal base, which
is the anchor position plus the full motif width); on a
reverse-complement match it is the prefix of the original sequence of
length `len(original) - boundary`, the boundary being in RC
coordinates. -/
theorem claim_C1_trim_boundary (seq a l f : List Char) (r : MatchResult)
    (rc? : Bool) (m : Nat)
    (h : extract_umi_and_trim seq a l f = .matched r)
    (hl : locate seq a = some (rc?, m)) :
    r.found_rc = rc? ∧
    r.boundary = m + a.length + UMI1_LEN + l.length + UMI2_LEN + f.length + 1 ∧
    (rc? = false → r.trimmed = seq.drop r.boundary) ∧
    (rc? = true → r.trimmed = seq.take (seq.length - r.boundary)) := by
  obtain ⟨m2, hl2, e2, _, e6⟩ := extract_matched_inv h
  rw [hl] at hl2
  simp only [Option.some.injEq, Prod.mk.injEq] at hl2
  obtain ⟨hq1, hq2⟩ := hl2
  subst hq2
  refine ⟨hq1.symm, e2, ?_, ?_⟩
  · intro hfwd
    rw [e6, hq1.symm, hfwd]
    simp
  · intro hrc
    rw [e6, hq1.symm, hrc]
    simp

/-- C1 witness: the spec example sequence, matched forward at offset 0;
its trim boundary is 80 and the trimmed sequence is the suffix from 80. -/
theorem claim_C1_trim_boundary_witness :
    exampleResTRA.found_rc = false ∧
    exampleResTRA.boundary = 0 + PRE_UMI1_TRA.length + UMI1_LEN +
      LINKER_FWD_TRA.length + UMI2_LEN + FLANK_TRA_SEQ.length + 1 ∧
    (false = false → exampleResTRA.trimmed = exampleSeqTRA.drop exampleResTRA.boundary) ∧
    (false = true → exampleResTRA.trimmed
      = exampleSeqTRA.take (exampleSeqTRA.length - exampleResTRA.boundary)) :=
  claim_C1_trim_boundary exampleSeqTRA PRE_UMI1_TRA LINKER_FWD_TRA FLANK_TRA_SEQ
    exampleResTRA false 0 (by decide) (by decide)

/-- C2: under the FASTQ invariant `len(quality) = len(sequence)`, the
quality slice the main loop computes for a trimmed read covers exactly
the coordinate range of the trimmed sequence — suffix from the same
boundary on a forward match, prefix up to the same boundary on a
reverse-complement match — and its length equals the trimmed
sequence's length. -/
theorem claim_C2_quality_slice (seq qual a l f : List Char) (r : MatchResult)
    (h : extract_umi_and_trim seq a l f = .matched r)
    (hq : qual.length = seq.length) :
    trimQuality seq qual r.trimmed r.found_rc
      = (if r.found_rc then qual.take (seq.length - r.boundary)
         else qual.drop r.boundary) ∧
    (trimQuality seq qual r.trimmed r.found_rc).length = r.trimmed.length := by
  obtain ⟨m, _, _, e3, e6⟩ := extract_matched_inv h
  unfold trimQuality
  cases hrc : r.found_rc with
  | false =>
    rw [hrc] at e6
    simp only [Bool.false_eq_true, if_false] at e6 ⊢
    have hlen_tr : r.trimmed.length = seq.length - r.boundary := by
      rw [e6]; exact List.length_drop ..
    have harith : seq.length - (seq.length - r.boundary) = r.boundary := by omega
    rw [hlen_tr, harith]
    refine ⟨rfl, ?_⟩
    rw [List.length_drop, hq]
  | true =>
    rw [hrc] at e6
    simp only [if_true] at e6 ⊢
    have hlen_tr : r.trimmed.length = seq.length - r.boundary := by
      rw [e6, List.length_take]
      omega
    rw [hlen_tr]
    refine ⟨rfl, ?_⟩
    rw [List.length_take, hq]
    omega

/-- C2 witness: on the spec example (forward match, boundary 80) with a
same-length quality string, the emitted quality is the suffix from 80
and has the trimmed sequence's length. -/
theorem claim_C2_quality_slice_witness :
    trimQuality exampleSeqTRA exampleSeqTRA exampleResTRA.trimmed exampleResTRA.found_rc
      = (if exampleResTRA.found_rc
         then exampleSeqTRA.take (exampleSeqTRA.length - exampleResTRA.boundary)
         else exampleSeqTRA.drop exampleResTRA.boundary) ∧
    (trimQuality exampleSeqTRA exampleSeqTRA exampleResTRA.trimmed
      exampleResTRA.found_rc).length = exampleResTRA.trimmed.length :=
  claim_C2_quality_slice exampleSeqTRA exampleSeqTRA PRE_UMI1_TRA LINKER_FWD_TRA
    FLANK_TRA_SEQ exampleResTRA (by decide) (by decide)

/-- C8: refuted as stated — the code contains no explicit bounds check.
When the anchor matches 2 characters before the end of the sequence,
the C code advances the cursor to offset 27 of a 22-character string
and calls `strncmp` there, a read past the string terminator (`.oob` in
the model), instead of cleanly reporting "no match". -/
theorem claim_C8_unchecked_overrun :
    extract_umi_and_trim (PRE_UMI1_TRA ++ "AA".toList)
      PRE_UMI1_TRA LINKER_FWD_TRA FLANK_TRA_SEQ = .oob := by decide

/-- C9 counterexample: the involution fails outside the nucleotide
alphabet, because every non-ACGTN character is complemented to N. -/
theorem claim_C9_counterexample :
    ¬ (reverse_complement (reverse_complement ['X']) = ['X']) := by decide

/-- C9 (amended): `reverse_complement` always preserves length, and it
is an involution on sequences over the alphabet {A, C, G, T, N}. -/
theorem claim_C9_involution (s : List Char) :
    (reverse_complement s).length = s.length ∧
    ((∀ c ∈ s, isBase c = true) →
      reverse_complement (reverse_complement s) = s) :=
  ⟨rc_length s, fun h => rc_rc_of_bases s h⟩

/-- C9 witness: the involution on the concrete sequence `ACGTN`. -/
theorem claim_C9_involution_witness :
    (reverse_complement "ACGTN".toList).length = "ACGTN".toList.length ∧
    reverse_complement (reverse_complement "ACGTN".toList) = "ACGTN".toList :=
  ⟨(claim_C9_involution "ACGTN".toList).1,
   (claim_C9_involution "ACGTN".toList).2 (by decide)⟩

/-- A valid TRA composite with `umi1 = CCCCCCC`, `umi2 = GGGGGGG` and
terminal base `A`, used to exhibit first-occurrence shadowing. -/
def compositeCG : List Char :=
  PRE_UMI1_TRA ++ "CCCCCCC".toList ++ LINKER_FWD_TRA ++ "GGGGGGG".toList ++
    FLANK_TRA_SEQ ++ "A".toList

/-- `compositeCG` preceded by a decoy: an earlier anchor occurrence whose
continuation is invalid. -/
def shadowedSeq : List Char := PRE_UMI1_TRA ++ "C".toList ++ compositeCG

/-- The reverse complement of `compositeCG` preceded by the same decoy
anchor, so the forward search succeeds on the decoy and the reverse
complement is never searched. -/
def shadowedRCSeq : List Char := PRE_UMI1_TRA ++ "C".toList ++ reverse_complement compositeCG

/-- C5: whenever some validation step of the chain fails — the anchor is
absent in both orientations, or the linker characters are present but
differ from the linker literal, or the flank characters are present but
differ from the flank literal, or the terminal character is neither 'A'
nor 'T' — the extractor returns no match, carrying no partial output. -/
theorem claim_C5_failure_policy (seq a l f : List Char)
    (h : failsChain seq a l f = true) :
    extract_umi_and_trim seq a l f = .noMatch := by
  unfold failsChain at h
  unfold extract_umi_and_trim locate
  cases hf1 : findPattern a seq with
  | some m =>
    rw [hf1] at h
    simp only [hf1]
    exact extractAt_fails h
  | none =>
    rw [hf1] at h
    simp only [hf1]
    cases hf2 : findPattern a (reverse_complement seq) with
    | some m =>
      rw [hf2] at h
      simp only [hf2]
      exact extractAt_fails h
    | none => simp only [hf2]

/-- C5 witness: a sequence carrying the anchor, a UMI, and then a
linker whose first character is corrupted; the chain fails at the
linker comparison and the extractor reports no match. -/
theorem claim_C5_failure_policy_witness :
    failsChain (PRE_UMI1_TRA ++ "AAAAAAA".toList ++ "CTACACGCTGGATCCGACTTGTAGA".toList ++
        "TTTTTTT".toList ++ FLANK_TRA_SEQ ++ "A".toList)
      PRE_UMI1_TRA LINKER_FWD_TRA FLANK_TRA_SEQ = true ∧
    extract_umi_and_trim (PRE_UMI1_TRA ++ "AAAAAAA".toList ++ "CTACACGCTGGATCCGACTTGTAGA".toList ++
        "TTTTTTT".toList ++ FLANK_TRA_SEQ ++ "A".toList)
      PRE_UMI1_TRA LINKER_FWD_TRA FLANK_TRA_SEQ = .noMatch :=
  ⟨by decide, claim_C5_failure_policy _ _ _ _ (by decide)⟩

/-- C10: once the anchor occurs anywhere in the forward sequence, the
reverse complement is never searched: if the validation chain fails (in
bounds) at the first forward anchor occurrence, the extractor returns
no match — whatever the reverse complement contains. -/
theorem claim_C10_forward_shadowing (seq a l f : List Char) (m : Nat)
    (hf : findPattern a seq = some m)
    (hfail : failsAt seq m a l f = true) :
    extract_umi_and_trim seq a l f = .noMatch := by
  unfold extract_umi_and_trim locate
  simp only [hf]
  exact extractAt_fails hfail

/-- C10 witness: `shadowedRCSeq` starts with a decoy forward anchor whose
continuation is invalid, while its reverse complement contains the full
valid composite `compositeCG`; the extractor still reports no match. -/
theorem claim_C10_forward_shadowing_witness :
    findPattern PRE_UMI1_TRA shadowedRCSeq = some 0 ∧
    failsAt shadowedRCSeq 0 PRE_UMI1_TRA LINKER_FWD_TRA FLANK_TRA_SEQ = true ∧
    compositeCG <:+: reverse_complement shadowedRCSeq ∧
    extract_umi_and_trim shadowedRCSeq PRE_UMI1_TRA LINKER_FWD_TRA FLANK_TRA_SEQ = .noMatch :=
  ⟨by decide, by decide, by decide,
   claim_C10_forward_shadowing _ _ _ _ 0 (by decide) (by decide)⟩

/-- C3 counterexample: `shadowedSeq` contains the full valid composite
`compositeCG` verbatim in forward orientation, yet the extractor
returns no match, because the first anchor occurrence (the decoy) is
the only position the code validates. -/
theorem claim_C3_counterexample :
    compositeCG <:+: shadowedSeq ∧
    extract_umi_and_trim shadowedSeq PRE_UMI1_TRA LINKER_FWD_TRA FLANK_TRA_SEQ = .noMatch :=
  ⟨by decide, by decide⟩

/-- C3 (amended): if the composite `anchor ++ umi1(7) ++ linker ++
umi2(7) ++ flank ++ 'A'` occurs in forward orientation starting at the
first anchor occurrence of the sequence, the extractor reports a
forward match with exactly those UMI values (and trims to the suffix
after the composite). -/
theorem claim_C3_forward_extraction (a l f pre post u1 u2 : List Char)
    (h1 : u1.length = UMI1_LEN) (h2 : u2.length = UMI2_LEN)
    (hfind : findPattern a (pre ++ a ++ u1 ++ l ++ u2 ++ f ++ 'A' :: post) = some pre.length) :
    extract_umi_and_trim (pre ++ a ++ u1 ++ l ++ u2 ++ f ++ 'A' :: post) a l f
      = .matched ⟨false, u1, u2, post,
          pre.length + a.length + UMI1_LEN + l.length + UMI2_LEN + f.length + 1⟩ := by
  unfold extract_umi_and_trim locate
  simp only [hfind]
  rw [extractAt_composite _ pre post u1 u2 a l f false 'A' pre.length h1 h2 (Or.inl rfl) rfl]
  have hdrop : (pre ++ a ++ u1 ++ l ++ u2 ++ f ++ 'A' :: post).drop
      (pre.length + a.length + UMI1_LEN + l.length + UMI2_LEN + f.length + 1) = post := by
    have hs : pre ++ a ++ u1 ++ l ++ u2 ++ f ++ 'A' :: post
        = (pre ++ a ++ u1 ++ l ++ u2 ++ f ++ ['A']) ++ post := by simp
    rw [hs]
    exact List.drop_left' (by
      simp only [List.length_append, List.length_cons, List.length_nil, h1, h2])
  rw [hdrop]
  simp

/-- C3 witness: a concrete forward embedding with context on both
sides and distinct UMIs is extracted exactly. -/
theorem claim_C3_forward_extraction_witness :
    findPattern PRE_UMI1_TRA ("TTT".toList ++ PRE_UMI1_TRA ++ "ACGTACG".toList ++
        LINKER_FWD_TRA ++ "TGCATGC".toList ++ FLANK_TRA_SEQ ++ 'A' :: "GGG".toList)
      = some ("TTT".toList).length ∧
    extract_umi_and_trim ("TTT".toList ++ PRE_UMI1_TRA ++ "ACGTACG".toList ++
        LINKER_FWD_TRA ++ "TGCATGC".toList ++ FLANK_TRA_SEQ ++ 'A' :: "GGG".toList)
      PRE_UMI1_TRA LINKER_FWD_TRA FLANK_TRA_SEQ
      = .matched ⟨false, "ACGTACG".toList, "TGCATGC".toList, "GGG".toList,
          ("TTT".toList).length + PRE_UMI1_TRA.length + UMI1_LEN + LINKER_FWD_TRA.length +
            UMI2_LEN + FLANK_TRA_SEQ.length + 1⟩ :=
  ⟨by decide,
   claim_C3_forward_extraction PRE_UMI1_TRA LINKER_FWD_TRA FLANK_TRA_SEQ
     "TTT".toList "GGG".toList "ACGTACG".toList "TGCATGC".toList
     (by decide) (by decide) (by decide)⟩

/-- C4 counterexample: `compositeCG` matches forward as a standalone
sequence, but embedding its reverse complement after a decoy forward
anchor yields no match at all (the forward anchor hit suppresses the
reverse-complement search), refuting the claim for arbitrary embeddings. -/
theorem claim_C4_counterexample :
    extract_umi_and_trim compositeCG PRE_UMI1_TRA LINKER_FWD_TRA FLANK_TRA_SEQ
      = .matched ⟨false, "CCCCCCC".toList, "GGGGGGG".toList, [], 80⟩ ∧
    extract_umi_and_trim shadowedRCSeq PRE_UMI1_TRA LINKER_FWD_TRA FLANK_TRA_SEQ = .noMatch :=
  ⟨by decide, by decide⟩

/-- C4 (amended): take a composite `anchor ++ umi1(7) ++ linker ++
umi2(7) ++ flank ++ t` over the nucleotide alphabet, `t ∈ {A, T}`,
whose own first anchor occurrence is at its start.  Then the composite
matches forward standalone, and embedding its reverse complement in a
context where the anchor does not occur forward and where the composite
is at the first anchor occurrence of the reverse-complement buffer
yields a reverse-complement match with the same `umi1`/`umi2` values
(and trims to the prefix before the embedded reverse complement). -/
theorem claim_C4_rc_extraction (a l f pre post u1 u2 : List Char) (t : Char)
    (h1 : u1.length = UMI1_LEN) (h2 : u2.length = UMI2_LEN)
    (ht : t = 'A' ∨ t = 'T')
    (hbase : ∀ c ∈ a ++ u1 ++ l ++ u2 ++ f ++ [t], isBase c = true)
    (hfwd0 : findPattern a (a ++ u1 ++ l ++ u2 ++ f ++ [t]) = some 0)
    (hnofwd : findPattern a
      (pre ++ reverse_complement (a ++ u1 ++ l ++ u2 ++ f ++ [t]) ++ post) = none)
    (hrcfind : findPattern a (reverse_complement
      (pre ++ reverse_complement (a ++ u1 ++ l ++ u2 ++ f ++ [t]) ++ post)) = some post.length) :
    extract_umi_and_trim (a ++ u1 ++ l ++ u2 ++ f ++ [t]) a l f
      = .matched ⟨false, u1, u2, [],
          a.length + UMI1_LEN + l.length + UMI2_LEN + f.length + 1⟩ ∧
    extract_umi_and_trim (pre ++ reverse_complement (a ++ u1 ++ l ++ u2 ++ f ++ [t]) ++ post) a l f
      = .matched ⟨true, u1, u2, pre,
          post.length + a.length + UMI1_LEN + l.length + UMI2_LEN + f.length + 1⟩ := by
  have hrrc := rc_rc_of_bases _ hbase
  have hcomplen : (a ++ u1 ++ l ++ u2 ++ f ++ [t]).length
      = a.length + UMI1_LEN + l.length + UMI2_LEN + f.length + 1 := by
    simp only [List.length_append, List.length_cons, List.length_nil, h1, h2]
  constructor
  · unfold extract_umi_and_trim locate
    simp only [hfwd0]
    have hshape : a ++ u1 ++ l ++ u2 ++ f ++ [t]
        = ([] : List Char) ++ a ++ u1 ++ l ++ u2 ++ f ++ t :: ([] : List Char) := by simp
    rw [hshape,
      extractAt_composite _ ([] : List Char) ([] : List Char) u1 u2 a l f false t 0 h1 h2 ht rfl]
    have hdrop : (([] : List Char) ++ a ++ u1 ++ l ++ u2 ++ f ++ t :: ([] : List Char)).drop
        (([] : List Char).length + a.length + UMI1_LEN + l.length + UMI2_LEN + f.length + 1)
        = ([] : List Char) := by
      rw [← hshape]
      simp only [List.length_nil, Nat.zero_add]
      rw [← hcomplen]
      exact List.drop_length ..
    rw [hdrop]
    simp
  · unfold extract_umi_and_trim locate
    simp only [hnofwd, hrcfind]
    have hrc : reverse_complement (pre ++ reverse_complement (a ++ u1 ++ l ++ u2 ++ f ++ [t]) ++ post)
        = reverse_complement post ++ a ++ u1 ++ l ++ u2 ++ f ++ t :: reverse_complement pre := by
      rw [rc_append, rc_append, hrrc]
      simp [List.append_assoc]
    rw [hrc,
      extractAt_composite _ (reverse_complement post) (reverse_complement pre) u1 u2 a l f true t
        post.length h1 h2 ht (rc_length post).symm]
    have hlen_seq : (pre ++ reverse_complement (a ++ u1 ++ l ++ u2 ++ f ++ [t]) ++ post).length
        = pre.length + (a.length + UMI1_LEN + l.length + UMI2_LEN + f.length + 1) + post.length := by
      simp only [List.length_append, rc_length, hcomplen]
    have htake : (pre ++ reverse_complement (a ++ u1 ++ l ++ u2 ++ f ++ [t]) ++ post).take
        ((pre ++ reverse_complement (a ++ u1 ++ l ++ u2 ++ f ++ [t]) ++ post).length -
          ((reverse_complement post).length + a.length + UMI1_LEN + l.length + UMI2_LEN +
            f.length + 1)) = pre := by
      have h9 : (pre ++ reverse_complement (a ++ u1 ++ l ++ u2 ++ f ++ [t]) ++ post).length -
          ((reverse_complement post).length + a.length + UMI1_LEN + l.length + UMI2_LEN +
            f.length + 1) = pre.length := by
        rw [hlen_seq, rc_length]
        omega
      rw [h9]
      have hs : pre ++ reverse_complement (a ++ u1 ++ l ++ u2 ++ f ++ [t]) ++ post
          = pre ++ (reverse_complement (a ++ u1 ++ l ++ u2 ++ f ++ [t]) ++ post) := by simp
      rw [hs]
      exact List.take_left' rfl
    rw [if_pos rfl, htake]
    simp [rc_length]

/-- C4 witness: a concrete reverse-complement embedding with context on
both sides yields the reverse-complement match with the same UMIs as
the standalone forward composite. -/
theorem claim_C4_rc_extraction_witness :
    extract_umi_and_trim (PRE_UMI1_TRA ++ "CCCCCCC".toList ++ LINKER_FWD_TRA ++
        "GGGGGGG".toList ++ FLANK_TRA_SEQ ++ ['T']) PRE_UMI1_TRA LINKER_FWD_TRA FLANK_TRA_SEQ
      = .matched ⟨false, "CCCCCCC".toList, "GGGGGGG".toList, [],
          PRE_UMI1_TRA.length + UMI1_LEN + LINKER_FWD_TRA.length + UMI2_LEN +
            FLANK_TRA_SEQ.length + 1⟩ ∧
    extract_umi_and_trim ("TT".toList ++ reverse_complement (PRE_UMI1_TRA ++ "CCCCCCC".toList ++
        LINKER_FWD_TRA ++ "GGGGGGG".toList ++ FLANK_TRA_SEQ ++ ['T']) ++ "GG".toList)
      PRE_UMI1_TRA LINKER_FWD_TRA FLANK_TRA_SEQ
      = .matched ⟨true, "CCCCCCC".toList, "GGGGGGG".toList, "TT".toList,
          ("GG".toList).length + PRE_UMI1_TRA.length + UMI1_LEN + LINKER_FWD_TRA.length +
            UMI2_LEN + FLANK_TRA_SEQ.length + 1⟩ :=
  claim_C4_rc_extraction PRE_UMI1_TRA LINKER_FWD_TRA FLANK_TRA_SEQ
    "TT".toList "GG".toList "CCCCCCC".toList "GGGGGGG".toList 'T'
    (by decide) (by decide) (Or.inr rfl) (by decide) (by decide) (by decide) (by decide)

/-- An R1 record whose sequence is the full TRA composite with nothing
after the terminal base: the motif matches forward but the trimmed
sequence is empty. -/
def noTailR1 : FastqRecord :=
  ⟨"@r1".toList,
   PRE_UMI1_TRA ++ "AAAAAAA".toList ++ LINKER_FWD_TRA ++ "TTTTTTT".toList ++
     FLANK_TRA_SEQ ++ "A".toList,
   "+".toList,
   PRE_UMI1_TRA ++ "AAAAAAA".toList ++ LINKER_FWD_TRA ++ "TTTTTTT".toList ++
     FLANK_TRA_SEQ ++ "A".toList⟩

/-- A small non-empty R2 partner record. -/
def smallR2 : FastqRecord := ⟨"@r2".toList, "ACGT".toList, "+".toList, "IIII".toList⟩

/-- An R1 record carrying the spec example sequence (non-empty trim). -/
def exampleR1 : FastqRecord := ⟨"@a".toList, exampleSeqTRA, "+".toList, exampleSeqTRA⟩

/-- C6 counterexample: on `noTailR1` the TRA extraction succeeds (with
an empty trimmed sequence), yet nothing is written to the TRA R2
channel, so read 2 is not passed through; the pass-through conjunct of
the claim fails as stated. -/
theorem claim_C6_counterexample :
    extract_umi_and_trim noTailR1.sequence PRE_UMI1_TRA LINKER_FWD_TRA FLANK_TRA_SEQ
      = .matched ⟨false, "AAAAAAA".toList, "TTTTTTT".toList, [], 80⟩ ∧
    processPair noTailR1 smallR2
      = some ⟨none, none, none, none, false, false, true, false⟩ :=
  ⟨by decide, by decide⟩

/-- C6 (amended): when the TRA extraction succeeds on read 1, the TRB
extractor is never run, no record for the pair reaches either TRB
channel, and — whenever the pair is emitted at all (trimmed read-1
sequence and read-2 sequence both non-empty) — read 2's sequence and
quality are passed to the TRA R2 channel unmodified (only its header is
annotated). -/
theorem claim_C6_tra_short_circuit (r1 r2 : FastqRecord) (res : MatchResult)
    (out : PairOutcome)
    (hm : extract_umi_and_trim r1.sequence PRE_UMI1_TRA LINKER_FWD_TRA FLANK_TRA_SEQ
      = .matched res)
    (hp : processPair r1 r2 = some out) :
    out.trbChecked = false ∧ out.trbR1 = none ∧ out.trbR2 = none ∧
    (res.trimmed ≠ [] → r2.sequence ≠ [] →
      out.traR2 = some ⟨r2.header ++ umiTag "TRA".toList res.umi1 res.umi2 res.found_rc,
                        r2.sequence, r2.plus, r2.quality⟩) := by
  unfold processPair at hp
  simp only [hm] at hp
  split at hp <;> rename_i hguard <;>
    (simp only [Option.some.injEq] at hp; subst hp)
  · exact ⟨rfl, rfl, rfl, fun _ _ => rfl⟩
  · refine ⟨rfl, rfl, rfl, fun ht1 ht2 => ?_⟩
    exact absurd ⟨List.length_pos.mpr ht1, List.length_pos.mpr ht2⟩ hguard

/-- C6 witness: concrete pair with a non-empty trim; TRB is untouched
and read 2 goes to TRA R2 with its sequence and quality intact. -/
theorem claim_C6_tra_short_circuit_witness :
    (⟨some ⟨exampleR1.header ++ umiTag "TRA".toList "AAAAAAA".toList "TTTTTTT".toList false,
            "GGGCCC".toList, "+".toList, "GGGCCC".toList⟩,
      some ⟨smallR2.header ++ umiTag "TRA".toList "AAAAAAA".toList "TTTTTTT".toList false,
            smallR2.sequence, smallR2.plus, smallR2.quality⟩,
      none, none, true, false, true, false⟩ : PairOutcome).trbChecked = false ∧
    (⟨some ⟨exampleR1.header ++ umiTag "TRA".toList "AAAAAAA".toList "TTTTTTT".toList false,
            "GGGCCC".toList, "+".toList, "GGGCCC".toList⟩,
      some ⟨smallR2.header ++ umiTag "TRA".toList "AAAAAAA".toList "TTTTTTT".toList false,
            smallR2.sequence, smallR2.plus, smallR2.quality⟩,
      none, none, true, false, true, false⟩ : PairOutcome).trbR1 = none ∧
    (⟨some ⟨exampleR1.header ++ umiTag "TRA".toList "AAAAAAA".toList "TTTTTTT".toList false,
            "GGGCCC".toList, "+".toList, "GGGCCC".toList⟩,
      some ⟨smallR2.header ++ umiTag "TRA".toList "AAAAAAA".toList "TTTTTTT".toList false,
            smallR2.sequence, smallR2.plus, smallR2.quality⟩,
      none, none, true, false, true, false⟩ : PairOutcome).trbR2 = none ∧
    (⟨some ⟨exampleR1.header ++ umiTag "TRA".toList "AAAAAAA".toList "TTTTTTT".toList false,
            "GGGCCC".toList, "+".toList, "GGGCCC".toList⟩,
      some ⟨smallR2.header ++ umiTag "TRA".toList "AAAAAAA".toList "TTTTTTT".toList false,
            smallR2.sequence, smallR2.plus, smallR2.quality⟩,
      none, none, true, false, true, false⟩ : PairOutcome).traR2
      = some ⟨smallR2.header ++ umiTag "TRA".toList exampleResTRA.umi1 exampleResTRA.umi2
                exampleResTRA.found_rc,
              smallR2.sequence, smallR2.plus, smallR2.quality⟩ := by
  have h := claim_C6_tra_short_circuit exampleR1 smallR2 exampleResTRA
    ⟨some ⟨exampleR1.header ++ umiTag "TRA".toList "AAAAAAA".toList "TTTTTTT".toList false,
            "GGGCCC".toList, "+".toList, "GGGCCC".toList⟩,
      some ⟨smallR2.header ++ umiTag "TRA".toList "AAAAAAA".toList "TTTTTTT".toList false,
            smallR2.sequence, smallR2.plus, smallR2.quality⟩,
      none, none, true, false, true, false⟩ (by decide) (by decide)
  exact ⟨h.1, h.2.1, h.2.2.1, h.2.2.2 (by decide) (by decide)⟩

/-- C7: if a motif match succeeds but the trimmed sequence or the
untrimmed partner's sequence is empty, the pair is written to no output
channel and no assay subtotal is incremented, while `processed_pairs`
is still incremented; and every record emitted on any channel has a
non-empty sequence. -/
theorem claim_C7_empty_guard (r1 r2 : FastqRecord) (out : PairOutcome)
    (hp : processPair r1 r2 = some out) :
    (∀ res, extract_umi_and_trim r1.sequence PRE_UMI1_TRA LINKER_FWD_TRA FLANK_TRA_SEQ
        = .matched res →
      res.trimmed = [] ∨ r2.sequence = [] →
      out = ⟨none, none, none, none, false, false, true, false⟩) ∧
    (∀ res, extract_umi_and_trim r1.sequence PRE_UMI1_TRA LINKER_FWD_TRA FLANK_TRA_SEQ
        = .noMatch →
      extract_umi_and_trim r2.sequence PRE_UMI1_TRB LINKER_REV_TRB FLANK_TRB_SEQ
        = .matched res →
      res.trimmed = [] ∨ r1.sequence = [] →
      out = ⟨none, none, none, none, false, false, true, true⟩) ∧
    (∀ rec : FastqRecord,
      (out.traR1 = some rec ∨ out.traR2 = some rec ∨
       out.trbR1 = some rec ∨ out.trbR2 = some rec) →
      rec.sequence ≠ []) := by
  unfold processPair at hp
  cases hA : extract_umi_and_trim r1.sequence PRE_UMI1_TRA LINKER_FWD_TRA FLANK_TRA_SEQ with
  | oob => rw [hA] at hp; exact absurd hp (by simp)
  | matched res1 =>
    simp only [hA] at hp
    split at hp <;> rename_i hguard <;>
      (simp only [Option.some.injEq] at hp; subst hp)
    · refine ⟨?_, ?_, ?_⟩
      · intro res hres hempty
        simp only [ExtractOut.matched.injEq] at hres
        subst hres
        rcases hguard with ⟨hg1, hg2⟩
        exfalso
        rcases hempty with he | he
        · rw [he] at hg1; simp at hg1
        · rw [he] at hg2; simp at hg2
      · intro res hres
        exact absurd hres (by simp)
      · intro rec hrec
        rcases hguard with ⟨hg1, hg2⟩
        rcases hrec with h | h | h | h
        · injection h with h2; rw [← h2]; exact List.length_pos.mp hg1
        · injection h with h2; rw [← h2]; exact List.length_pos.mp hg2
        · exact absurd h (by simp)
        · exact absurd h (by simp)
    · refine ⟨fun res hres hempty => rfl, ?_, ?_⟩
      · intro res hres
        exact absurd hres (by simp)
      · intro rec hrec
        rcases hrec with h | h | h | h <;> exact absurd h (by simp)
  | noMatch =>
    simp only [hA] at hp
    cases hB : extract_umi_and_trim r2.sequence PRE_UMI1_TRB LINKER_REV_TRB FLANK_TRB_SEQ with
    | oob => rw [hB] at hp; exact absurd hp (by simp)
    | matched res2 =>
      simp only [hB] at hp
      split at hp <;> rename_i hguard <;>
        (simp only [Option.some.injEq] at hp; subst hp)
      · refine ⟨?_, ?_, ?_⟩
        · intro res hres
          exact absurd hres (by simp)
        · intro res _ hres hempty
          simp only [ExtractOut.matched.injEq] at hres
          subst hres
          rcases hguard with ⟨hg1, hg2⟩
          exfalso
          rcases hempty with he | he
          · rw [he] at hg2; simp at hg2
          · rw [he] at hg1; simp at hg1
        · intro rec hrec
          rcases hguard with ⟨hg1, hg2⟩
          rcases hrec with h | h | h | h
          · exact absurd h (by simp)
          · exact absurd h (by simp)
          · injection h with h2; rw [← h2]; exact List.length_pos.mp hg1
          · injection h with h2; rw [← h2]; exact List.length_pos.mp hg2
      · refine ⟨?_, fun res _ hres hempty => rfl, ?_⟩
        · intro res hres
          exact absurd hres (by simp)
        · intro rec hrec
          rcases hrec with h | h | h | h <;> exact absurd h (by simp)
    | noMatch =>
      simp only [hB, Option.some.injEq] at hp
      subst hp
      refine ⟨?_, ?_, ?_⟩
      · intro res hres
        exact absurd hres (by simp)
      · intro res _ hres
        exact absurd hres (by simp)
      · intro rec hrec
        rcases hrec with h | h | h | h <;> exact absurd h (by simp)

/-- C7 witness: on `noTailR1` the TRA motif matches with an empty trim;
the pair reaches no output channel, no subtotal is incremented, and the
pair-processed flag is still set. -/
theorem claim_C7_empty_guard_witness :
    processPair noTailR1 smallR2
      = some ⟨none, none, none, none, false, false, true, false⟩ ∧
    (⟨none, none, none, none, false, false, true, false⟩ : PairOutcome)
      = ⟨none, none, none, none, false, false, true, false⟩ :=
  ⟨by decide,
   (claim_C7_empty_guard noTailR1 smallR2 _ (by decide)).1
     ⟨false, "AAAAAAA".toList, "TTTTTTT".toList, [], 80⟩ (by decide) (Or.inl rfl)⟩

end PairTCR
